import Mathlib

/-!
# Verification of the fastai tabular transforms (`fastai/tabular/transform.py`)

This file is a shallow embedding, in Lean 4, of the tabular preprocessing
transforms of the repository: `Categorify`, `FillMissing`, `Normalize` and
`RemoveMinVariance`, together with theorems settling the specification
claims about them.

Modelling choices (all justified by the Python/pandas semantics of the
source file):

* A dataframe is an ordered association list of named columns; a column is a
  list of cells.  A cell is either a missing value (`Cell.na`, pandas `NaN`),
  a rational number (Python floats are modelled exactly by `ℚ`), a string
  (categorical labels) or a boolean (the `_na` indicator columns emitted by
  `FillMissing`).
* Fallible Python code (unset attribute accesses raising `AttributeError`,
  `KeyError` on missing dictionary keys, `ValueError` from
  `get_freq_ratio` unpacking, the `NameError` caused by the bare
  `check_sample` name in `RemoveMinVariance.apply_train`) is modelled with
  `Except String`.  A Python attribute that a method reads lazily inside a
  loop is modelled by an `Option` field that is only forced when the loop
  body runs at least once, exactly as CPython would.
* pandas reductions (`mean`, `std`, `var`, `median`, `value_counts`) skip
  missing values; `std`/`var` use the `ddof = 1` convention.  For fewer than
  two non-missing samples pandas produces `NaN`, and a comparison
  `NaN < threshold` is `False`; where that matters (the variance check of
  `RemoveMinVariance`) the embedding carries the sample-count guard
  explicitly.
* `pandas.Series.std` is the square root of the `ddof = 1` variance.  `ℚ`
  has no exact square root, so the development is parametric in a function
  `sqrt : ℚ → ℚ`; no theorem below depends on the value of `sqrt`, only on
  which statistics it is applied to.
-/

/-- A single dataframe cell: missing (`NaN`), numeric, string label, or a
boolean (used by the `_na` indicator columns). -/
inductive Cell where
  | na : Cell
  | num : ℚ → Cell
  | str : String → Cell
  | bool : Bool → Cell
deriving DecidableEq, Repr

/-- A dataframe: an ordered list of named columns (pandas `DataFrame`). -/
abbrev DataFrame := List (String × List Cell)

/-- `df.loc[:, n]` — the column named `n` (well-formed inputs always contain
the columns named by `cat_names` / `cont_names`; on a missing name pandas
would raise a `KeyError`, the model returns the empty column). -/
def getCol (df : DataFrame) (n : String) : List Cell :=
  (df.lookup n).getD []

/-- `df.loc[:, n] = c` — replace column `n` in place, or append it at the
end when absent (pandas appends new columns on the right; dataframe column
names are unique, so replacing the first occurrence is exact). -/
def setCol : DataFrame → String → List Cell → DataFrame
  | [], n, c => [(n, c)]
  | p :: rest, n, c =>
      if p.1 = n then (n, c) :: rest else p :: setCol rest n c

/-- `df.drop(columns=cols)` — remove every column whose name is in `cols`. -/
def dropCols (df : DataFrame) (cols : List String) : DataFrame :=
  df.filter (fun p => decide (p.1 ∉ cols))

/-- The non-missing cells of a column (`Series.dropna`). -/
def nonNull (col : List Cell) : List Cell :=
  col.filter (fun c => decide (c ≠ Cell.na))

/-- The numeric values of a column, missing values skipped (pandas numeric
reductions skip `NaN`; continuous columns hold only numbers and `NaN`). -/
def nonnullNums (col : List Cell) : List ℚ :=
  col.filterMap (fun c => match c with | .num q => some q | _ => none)

/-- `pd.isnull(col).sum()` — the number of missing cells. -/
def countNa (col : List Cell) : Nat :=
  col.count Cell.na

/-- `pd.isnull(col)` as a boolean indicator column. -/
def indicatorCol (col : List Cell) : List Cell :=
  col.map (fun c => Cell.bool (decide (c = Cell.na)))

/-- `Series.fillna(filler)`: replace missing cells by the filler.  A filler
of `none` models a `NaN` filler (pandas leaves the column unchanged). -/
def fillCell (filler : Option ℚ) (c : Cell) : Cell :=
  match c with
  | .na => (match filler with | some q => .num q | none => .na)
  | c => c

/-- `Series.median` over an explicit list of the non-missing numeric values:
sort and average the two middle elements; `none` models pandas returning
`NaN` on an empty sequence. -/
def medianQ (l : List ℚ) : Option ℚ :=
  if l = [] then none
  else
    let s := List.insertionSort (· ≤ ·) l
    some ((s.getD ((l.length - 1) / 2) 0 + s.getD (l.length / 2) 0) / 2)

/-- `Series.value_counts().idxmax()` — a value of maximal multiplicity
(`none` on the empty list, where pandas raises). -/
def modeQ (l : List ℚ) : Option ℚ :=
  l.dedup.foldl
    (fun acc v =>
      match acc with
      | none => some v
      | some w => if l.count w < l.count v then some v else acc)
    none

/-- `Series.mean` of the non-missing values (junk value `0` on the empty
list, where pandas yields `NaN`; theorems guard against that case). -/
def meanQ (l : List ℚ) : ℚ :=
  l.sum / l.length

/-- `Series.var` (`ddof = 1`) of the non-missing values (junk value on fewer
than two samples, where pandas yields `NaN`; call sites carry the
sample-count guard). -/
def varQ (l : List ℚ) : ℚ :=
  ((l.map (fun x => (x - meanQ l) ^ 2)).sum) / ((l.length - 1 : ℕ) : ℚ)

/-- Total comparison on cells, used only to fix the ascending ordering that
`astype('category')` gives to a category vocabulary. -/
def cellLeB (a b : Cell) : Bool :=
  match a, b with
  | .num x, .num y => decide (x ≤ y)
  | .str x, .str y => decide (x ≤ y)
  | .bool x, .bool y => !x || y
  | .na, .na => true
  | .na, _ => true
  | _, .na => false
  | .num _, _ => true
  | _, .num _ => false
  | .str _, _ => true
  | _, .str _ => false

/-- Ascending sort of a category vocabulary. -/
def sortCells (l : List Cell) : List Cell :=
  List.insertionSort (fun a b => cellLeB a b = true) l

/-- The `FillStrategy` enum of the source (`IntEnum MEDIAN COMMON CONSTANT`). -/
inductive FillStrategy where
  | MEDIAN | COMMON | CONSTANT
deriving DecidableEq, Repr

/-! ## Categorify -/

/-- The `Categorify` transform.  The `cat_names`/`cont_names` fields come
from the `TabularProc` dataclass base; `categories` is the fitted state,
`none` before `apply_train` has run (a Python attribute that does not exist
yet). -/
structure Categorify where
  cat_names : List String
  cont_names : List String
  categories : Option (List (String × List Cell)) := none
deriving DecidableEq, Repr

/-- `Categorify.apply_train`: for each categorical column, record the sorted
vocabulary of distinct non-missing values
(`astype('category').cat.categories`).  At the value level the dataframe is
unchanged (only the dtype changes). -/
def Categorify.apply_train (st : Categorify) (df : DataFrame) :
    Categorify × DataFrame :=
  let cs := st.cat_names.map
    (fun n => (n, sortCells (nonNull (getCol df n)).dedup))
  ({st with categories := some cs}, df)

/-- One loop iteration of `Categorify.apply_test`:
`df.loc[:,n] = pd.Categorical(df[n], categories=self.categories[n],
ordered=True)` — values outside the stored vocabulary (including `NaN`)
become the undefined-category code, modelled as `Cell.na`.  A name absent
from the fitted dictionary raises a `KeyError`. -/
def Categorify.testStep (cs : List (String × List Cell)) (n : String)
    (df : DataFrame) : Except String DataFrame :=
  match cs.lookup n with
  | some cats =>
      .ok (setCol df n ((getCol df n).map
        (fun v => if v ∈ cats then v else Cell.na)))
  | none => .error "KeyError"

/-- The `for n in self.cat_names` loop of `Categorify.apply_test`. -/
def Categorify.testGo (cs : List (String × List Cell)) :
    List String → DataFrame → Except String DataFrame
  | [], df => .ok df
  | n :: rest, df => do
      let df1 ← Categorify.testStep cs n df
      Categorify.testGo cs rest df1

/-- `Categorify.apply_test`.  When `cat_names` is empty the loop body never
runs, so the (possibly unset) `categories` attribute is never read; with a
nonempty `cat_names` an unset attribute raises (`AttributeError`). -/
def Categorify.apply_test (st : Categorify) (df : DataFrame) :
    Except String DataFrame :=
  match st.cat_names, st.categories with
  | [], _ => .ok df
  | _ :: _, none =>
      .error "AttributeError: 'Categorify' object has no attribute 'categories'"
  | names@(_ :: _), some cs => Categorify.testGo cs names df

/-! ## FillMissing -/

/-- The `FillMissing` transform; `na_dict` is the fitted state (absent
before fit).  A stored filler of `none` models a `NaN` filler (the median
of an all-missing training column). -/
structure FillMissing where
  cat_names : List String
  cont_names : List String
  fill_strategy : FillStrategy := .MEDIAN
  add_col : Bool := true
  fill_val : ℚ := 0
  na_dict : Option (List (String × Option ℚ)) := none
deriving DecidableEq, Repr

/-- The filler value for one column under the configured strategy:
`MEDIAN` → `df.loc[:,name].median()`; `CONSTANT` → `self.fill_val`;
`COMMON` → `df.loc[:,name].dropna().value_counts().idxmax()`, which raises
a `ValueError` when there is no non-missing value. -/
def computeFiller (strategy : FillStrategy) (fv : ℚ) (col : List Cell) :
    Except String (Option ℚ) :=
  match strategy with
  | .MEDIAN => .ok (medianQ (nonnullNums col))
  | .CONSTANT => .ok (some fv)
  | .COMMON =>
      match modeQ (nonnullNums col) with
      | some v => .ok (some v)
      | none => .error "ValueError: attempt to get argmax of an empty sequence"

/-- One loop iteration of `FillMissing.apply_train` on column `name`,
acting on the accumulated `(na_dict, cat_names, df)`: columns with no
missing value are skipped; otherwise the `_na` indicator column is emitted
first (when `add_col`, registering its name in `cat_names` if not already
present), then the filler is computed and the column filled, and the filler
recorded in `na_dict`. -/
def FillMissing.trainStep (strategy : FillStrategy) (fv : ℚ) (add_col : Bool)
    (name : String)
    (acc : List (String × Option ℚ) × List String × DataFrame) :
    Except String (List (String × Option ℚ) × List String × DataFrame) :=
  let (nd, cats, df) := acc
  let col := getCol df name
  if countNa col ≠ 0 then do
    let df1 := if add_col then setCol df (name ++ "_na") (indicatorCol col)
               else df
    let cats1 := if add_col ∧ (name ++ "_na") ∉ cats then cats ++ [name ++ "_na"]
                 else cats
    let filler ← computeFiller strategy fv (getCol df1 name)
    .ok (nd ++ [(name, filler)], cats1,
         setCol df1 name ((getCol df1 name).map (fillCell filler)))
  else .ok (nd, cats, df)

/-- The `for name in self.cont_names` loop of `FillMissing.apply_train`. -/
def FillMissing.trainGo (strategy : FillStrategy) (fv : ℚ) (add_col : Bool) :
    List String → (List (String × Option ℚ) × List String × DataFrame) →
    Except String (List (String × Option ℚ) × List String × DataFrame)
  | [], acc => .ok acc
  | name :: rest, acc => do
      let acc1 ← FillMissing.trainStep strategy fv add_col name acc
      FillMissing.trainGo strategy fv add_col rest acc1

/-- `FillMissing.apply_train`: run the loop starting from an empty
`na_dict` and store the result as fitted state. -/
def FillMissing.apply_train (st : FillMissing) (df : DataFrame) :
    Except String (FillMissing × DataFrame) := do
  let (nd, cats, df') ← FillMissing.trainGo st.fill_strategy st.fill_val
      st.add_col st.cont_names ([], st.cat_names, df)
  .ok ({st with na_dict := some nd, cat_names := cats}, df')

/-- One loop iteration of `FillMissing.apply_test` on column `name`: only
columns recorded in `na_dict` are touched; the indicator column is
recomputed from this split's own missingness, and the *stored* filler is
used for filling. -/
def FillMissing.testStep (add_col : Bool) (d : List (String × Option ℚ))
    (name : String) (acc : List String × DataFrame) :
    List String × DataFrame :=
  match d.lookup name with
  | none => acc
  | some filler =>
      let (cats, df) := acc
      let df1 := if add_col then setCol df (name ++ "_na") (indicatorCol (getCol df name))
                 else df
      let cats1 := if add_col ∧ (name ++ "_na") ∉ cats then cats ++ [name ++ "_na"]
                   else cats
      (cats1, setCol df1 name ((getCol df1 name).map (fillCell filler)))

/-- The `for name in self.cont_names` loop of `FillMissing.apply_test`. -/
def FillMissing.testGo (add_col : Bool) (d : List (String × Option ℚ)) :
    List String → (List String × DataFrame) → List String × DataFrame
  | [], acc => acc
  | name :: rest, acc =>
      FillMissing.testGo add_col d rest (FillMissing.testStep add_col d name acc)

/-- `FillMissing.apply_test`.  With an empty `cont_names` the loop body
never reads the (possibly unset) `na_dict` attribute; otherwise an unset
`na_dict` raises. -/
def FillMissing.apply_test (st : FillMissing) (df : DataFrame) :
    Except String (FillMissing × DataFrame) :=
  match st.cont_names, st.na_dict with
  | [], _ => .ok (st, df)
  | _ :: _, none =>
      .error "AttributeError: 'FillMissing' object has no attribute 'na_dict'"
  | names@(_ :: _), some d =>
      let res := FillMissing.testGo st.add_col d names (st.cat_names, df)
      .ok ({st with cat_names := res.1}, res.2)

/-! ## Normalize -/

/-- The `Normalize` transform; `means`/`stds` are the two fitted-state
dictionaries, absent before fit. -/
structure Normalize where
  cat_names : List String
  cont_names : List String
  means : Option (List (String × ℚ)) := none
  stds : Option (List (String × ℚ)) := none
deriving DecidableEq, Repr

/-- `(value - mean) / (1e-7 + std)` applied cellwise; missing stays missing
(`NaN` propagates through pandas arithmetic).  String/boolean cells cannot
occur in a continuous column and are passed through. -/
def normCell (m s : ℚ) : Cell → Cell
  | .num q => .num ((q - m) / (1 / 10000000 + s))
  | c => c

/-- One loop iteration of `Normalize.apply_train` on column `n`:
`self.means[n], self.stds[n] = df.loc[:,n].mean(), df.loc[:,n].std()`
followed by the standardization, accumulating `(means, stds, df)`.
`sqrt` interprets `Series.std` as the square root of the `ddof = 1`
variance. -/
def Normalize.trainStep (sq : ℚ → ℚ) (n : String)
    (acc : List (String × ℚ) × List (String × ℚ) × DataFrame) :
    List (String × ℚ) × List (String × ℚ) × DataFrame :=
  let (ms, ss, df) := acc
  let xs := nonnullNums (getCol df n)
  let m := meanQ xs
  let s := sq (varQ xs)
  (ms ++ [(n, m)], ss ++ [(n, s)],
   setCol df n ((getCol df n).map (normCell m s)))

/-- The `for n in self.cont_names` loop of `Normalize.apply_train`. -/
def Normalize.trainGo (sq : ℚ → ℚ) :
    List String → (List (String × ℚ) × List (String × ℚ) × DataFrame) →
    List (String × ℚ) × List (String × ℚ) × DataFrame
  | [], acc => acc
  | n :: rest, acc => Normalize.trainGo sq rest (Normalize.trainStep sq n acc)

/-- `Normalize.apply_train`. -/
def Normalize.apply_train (sq : ℚ → ℚ) (st : Normalize) (df : DataFrame) :
    Normalize × DataFrame :=
  let res := Normalize.trainGo sq st.cont_names ([], [], df)
  ({st with means := some res.1, stds := some res.2.1}, res.2.2)

/-- One loop iteration of `Normalize.apply_test` on column `n`, using the
*stored* mean/std; a name absent from the fitted dictionaries raises a
`KeyError`. -/
def Normalize.testStep (ms ss : List (String × ℚ)) (n : String)
    (df : DataFrame) : Except String DataFrame :=
  match ms.lookup n, ss.lookup n with
  | some m, some s =>
      .ok (setCol df n ((getCol df n).map (normCell m s)))
  | _, _ => .error "KeyError"

/-- The `for n in self.cont_names` loop of `Normalize.apply_test`. -/
def Normalize.testGo (ms ss : List (String × ℚ)) :
    List String → DataFrame → Except String DataFrame
  | [], df => .ok df
  | n :: rest, df => do
      let df1 ← Normalize.testStep ms ss n df
      Normalize.testGo ms ss rest df1

/-- `Normalize.apply_test`.  With an empty `cont_names` the (possibly
unset) `means`/`stds` attributes are never read; otherwise an unset
attribute raises. -/
def Normalize.apply_test (st : Normalize) (df : DataFrame) :
    Except String DataFrame :=
  match st.cont_names, st.means, st.stds with
  | [], _, _ => .ok df
  | _ :: _, none, _ =>
      .error "AttributeError: 'Normalize' object has no attribute 'means'"
  | _ :: _, some _, none =>
      .error "AttributeError: 'Normalize' object has no attribute 'stds'"
  | names@(_ :: _), some ms, some ss => Normalize.testGo ms ss names df

/-! ## RemoveMinVariance -/

/-- `get_freq_ratio` of the source: normalized `value_counts` (missing
values excluded), `+∞` (here `⊤ : WithTop ℚ`) when there is exactly one
distinct value, otherwise the difference of the two largest relative
frequencies.  On a column with no non-missing value the tuple unpacking
`most_common_freq, second_most_common_freq = value_counts[:2]` raises a
`ValueError`. -/
def get_freq_ratio (col : List Cell) : Except String (WithTop ℚ) :=
  let vals := nonNull col
  let counts := List.insertionSort (fun a b => a ≥ b)
    (vals.dedup.map (fun v => vals.count v))
  if counts.length = 1 then .ok ⊤
  else
    match counts with
    | c1 :: c2 :: _ => .ok (((c1 : ℚ) - (c2 : ℚ)) / (vals.length : ℚ))
    | _ => .error "ValueError: not enough values to unpack"

/-- `get_percent_of_uniq_vals` of the source:
`len(column.unique()) / len(column) * 100` (pandas `unique` keeps `NaN` as
one distinct value). -/
def get_percent_of_uniq_vals (col : List Cell) : ℚ :=
  ((col.dedup.length : ℚ) / (col.length : ℚ)) * 100

/-- The `RemoveMinVariance` transform; `cols_to_drop` is the fitted state,
absent before fit.  Defaults as in the source
(`min_var=0.00001`, `freq_cut=95/5`, `uniq_cut=10.0`, `remove_cols=True`,
`check_sample=1.0`, `verbose=True`; `verbose` only controls printing and is
irrelevant to the dataframe effect). -/
structure RemoveMinVariance where
  cat_names : List String
  cont_names : List String
  min_var : ℚ := 1 / 100000
  freq_cut : ℚ := 95 / 5
  uniq_cut : ℚ := 10
  remove_cols : Bool := true
  check_sample : ℚ := 1
  verbose : Bool := true
  cols_to_drop : Option (List String) := none
deriving DecidableEq, Repr

/-- The continuous loop of `RemoveMinVariance.apply_train`.  The source
line `col = col.sample(int(len(col) * check_sample))` references the bare
name `check_sample` (not `self.check_sample`), so any fit with
`check_sample < 1.0` and at least one continuous column raises a
`NameError` when evaluating the sample size.  The variance of fewer than
two non-missing samples is `NaN` in pandas and `NaN < min_var` is false,
hence the explicit sample-count guard. -/
def RemoveMinVariance.contGo (st : RemoveMinVariance) (df : DataFrame) :
    List String → List String → Except String (List String)
  | [], acc => .ok acc
  | n :: rest, acc =>
      if st.check_sample < 1 then
        .error "NameError: name 'check_sample' is not defined"
      else
        let xs := nonnullNums (getCol df n)
        let dropIt := 2 ≤ xs.length ∧ varQ xs < st.min_var
        RemoveMinVariance.contGo st df rest
          (if dropIt ∧ st.remove_cols then acc ++ [n] else acc)

/-- The categorical (near-zero-variance) loop of
`RemoveMinVariance.apply_train`. -/
def RemoveMinVariance.catGo (st : RemoveMinVariance) (df : DataFrame) :
    List String → List String → Except String (List String)
  | [], acc => .ok acc
  | n :: rest, acc => do
      let r ← get_freq_ratio (getCol df n)
      let dropIt := (st.freq_cut : WithTop ℚ) < r ∧
        get_percent_of_uniq_vals (getCol df n) < st.uniq_cut
      RemoveMinVariance.catGo st df rest
        (if dropIt ∧ st.remove_cols then acc ++ [n] else acc)

/-- `RemoveMinVariance.apply_train`: run both loops on the *unmodified*
dataframe, record `cols_to_drop`, then drop those columns. -/
def RemoveMinVariance.apply_train (st : RemoveMinVariance) (df : DataFrame) :
    Except String (RemoveMinVariance × DataFrame) := do
  let cd ← RemoveMinVariance.contGo st df st.cont_names []
  let kd ← RemoveMinVariance.catGo st df st.cat_names []
  let drops := cd ++ kd
  .ok ({st with cols_to_drop := some drops}, dropCols df drops)

/-- `RemoveMinVariance.apply_test`:
`df.drop(columns=self.cols_to_drop, inplace=True)` — an unset
`cols_to_drop` raises unconditionally; `drop` raises a `KeyError` when a
recorded column is absent from this dataframe. -/
def RemoveMinVariance.apply_test (st : RemoveMinVariance) (df : DataFrame) :
    Except String DataFrame :=
  match st.cols_to_drop with
  | none =>
      .error "AttributeError: 'RemoveMinVariance' object has no attribute 'cols_to_drop'"
  | some cols =>
      if cols.all (fun c => df.any (fun p => p.1 == c)) then
        .ok (dropCols df cols)
      else .error "KeyError"

/-- The near-zero-variance condition tested by the categorical loop of
`RemoveMinVariance.apply_train` on column `x`:
`get_freq_ratio(col) > self.freq_cut and get_percent_of_uniq_vals(col) <
self.uniq_cut`, the frequency ratio having evaluated without error. -/
def RemoveMinVariance.catDropCond (st : RemoveMinVariance) (df : DataFrame)
    (x : String) : Prop :=
  ∃ r, get_freq_ratio (getCol df x) = .ok r ∧
    (st.freq_cut : WithTop ℚ) < r ∧
    get_percent_of_uniq_vals (getCol df x) < st.uniq_cut

/-! ## Basic lemmas about column access -/

theorem getCol_nil (n : String) : getCol [] n = [] := rfl

theorem getCol_cons (p : String × List Cell) (rest : DataFrame) (n : String) :
    getCol (p :: rest) n = if n = p.1 then p.2 else getCol rest n := by
  unfold getCol
  rw [List.lookup_cons]
  by_cases h : n = p.1
  · simp [h]
  · simp [h, beq_false_of_ne h]

theorem getCol_setCol_self (df : DataFrame) (n : String) (c : List Cell) :
    getCol (setCol df n c) n = c := by
  induction df with
  | nil => simp [setCol, getCol_cons]
  | cons p rest ih =>
    by_cases hp : p.1 = n
    · simp [setCol, hp, getCol_cons]
    · rw [setCol, if_neg hp, getCol_cons,
        if_neg (fun hh : n = p.1 => hp hh.symm)]
      exact ih

theorem getCol_setCol_ne (df : DataFrame) {n m : String} (h : m ≠ n)
    (c : List Cell) : getCol (setCol df n c) m = getCol df m := by
  induction df with
  | nil => simp [setCol, getCol_cons, h]
  | cons p rest ih =>
    by_cases hp : p.1 = n
    · rw [setCol, if_pos hp, getCol_cons, getCol_cons]
      simp only [if_neg h]
      rw [if_neg (by rw [hp]; exact h)]
    · rw [setCol, if_neg hp, getCol_cons, getCol_cons]
      by_cases hm : m = p.1
      · simp [hm]
      · simp [hm, ih]

/-- A string never equals itself extended with the `"_na"` suffix. -/
theorem ne_append_na (n : String) : n ≠ n ++ "_na" := by
  intro h
  have hl := congrArg String.length h
  rw [String.length_append] at hl
  have h3 : ("_na" : String).length = 3 := rfl
  omega

/-- Short names (such as one-letter column names) are never of the form
`m ++ "_na"`. -/
theorem short_ne_append_na {s : String} (hs : s.length < 3) (m : String) :
    s ≠ m ++ "_na" := by
  intro h
  have hl := congrArg String.length h
  rw [String.length_append] at hl
  have h3 : ("_na" : String).length = 3 := rfl
  omega

/-! ## Lemmas about `FillMissing` -/

theorem lookup_eq_none_of_not_mem {β : Type} {l : List (String × β)}
    {m : String} (h : ∀ v, (m, v) ∉ l) : l.lookup m = none := by
  induction l with
  | nil => rfl
  | cons p rest ih =>
    rw [List.lookup_cons]
    by_cases hm : m = p.1
    · exfalso
      apply h p.2
      rw [hm, Prod.mk.eta]
      exact List.mem_cons_self _ _
    · simp only [beq_false_of_ne hm]
      exact ih (fun v hv => h v (List.mem_cons_of_mem _ hv))

theorem fillCell_some_ne_na (q : ℚ) (c : Cell) :
    fillCell (some q) c ≠ Cell.na := by
  cases c <;> simp [fillCell]

theorem na_not_mem_indicatorCol (col : List Cell) :
    Cell.na ∉ indicatorCol col := by
  intro h
  rcases List.mem_map.mp h with ⟨c, _, hc⟩
  exact Cell.noConfusion hc

theorem medianQ_isSome {l : List ℚ} (h : l ≠ []) :
    ∃ q, medianQ l = some q := by
  unfold medianQ
  rw [if_neg h]
  exact ⟨_, rfl⟩

theorem modeQ_foldl_isSome (l : List ℚ) (vs : List ℚ) (acc : Option ℚ)
    (h : acc.isSome) :
    (vs.foldl (fun acc v =>
      match acc with
      | none => some v
      | some w => if l.count w < l.count v then some v else acc) acc).isSome := by
  induction vs generalizing acc with
  | nil => exact h
  | cons v rest ih =>
    rw [List.foldl_cons]
    apply ih
    match acc, h with
    | some w, _ => dsimp only; split <;> rfl

theorem modeQ_isSome {l : List ℚ} (h : l ≠ []) :
    ∃ v, modeQ l = some v := by
  have hd : l.dedup ≠ [] := by
    intro hh
    exact h ((List.dedup_eq_nil _).mp hh)
  unfold modeQ
  match hl : l.dedup, hd with
  | v :: vs, _ =>
    rw [List.foldl_cons]
    have := modeQ_foldl_isSome l vs (some v) rfl
    exact Option.isSome_iff_exists.mp this

theorem computeFiller_isSome (strategy : FillStrategy) (fv : ℚ)
    (col : List Cell) (hnn : nonnullNums col ≠ []) :
    ∃ q, computeFiller strategy fv col = .ok (some q) := by
  cases strategy with
  | MEDIAN =>
    rcases medianQ_isSome hnn with ⟨q, hq⟩
    exact ⟨q, by simp [computeFiller, hq]⟩
  | CONSTANT => exact ⟨fv, rfl⟩
  | COMMON =>
    rcases modeQ_isSome hnn with ⟨v, hv⟩
    exact ⟨v, by simp [computeFiller, hv]⟩

theorem testStep_getCol_other (ac : Bool) (d : List (String × Option ℚ))
    (name : String) (acc : List String × DataFrame) {m : String}
    (hm : m ≠ name) (hna : m ≠ name ++ "_na") :
    getCol (FillMissing.testStep ac d name acc).2 m = getCol acc.2 m := by
  unfold FillMissing.testStep
  match hl : d.lookup name with
  | none => rfl
  | some filler =>
    dsimp only
    rw [getCol_setCol_ne _ hm]
    cases ac with
    | true => rw [if_pos rfl, getCol_setCol_ne _ hna]
    | false => rw [if_neg Bool.false_ne_true]

theorem testStep_getCol_self (ac : Bool) (d : List (String × Option ℚ))
    (name : String) (acc : List String × DataFrame) {filler : Option ℚ}
    (hf : d.lookup name = some filler) :
    getCol (FillMissing.testStep ac d name acc).2 name =
      (getCol acc.2 name).map (fillCell filler) := by
  unfold FillMissing.testStep
  rw [hf]
  dsimp only
  rw [getCol_setCol_self]
  cases ac with
  | true => rw [if_pos rfl, getCol_setCol_ne _ (ne_append_na name)]
  | false => rw [if_neg Bool.false_ne_true]

theorem testGo_getCol_notin (ac : Bool) (d : List (String × Option ℚ))
    (names : List String) (acc : List String × DataFrame) {m : String}
    (hm : m ∉ names) (hna : ∀ k ∈ names, m ≠ k ++ "_na") :
    getCol (FillMissing.testGo ac d names acc).2 m = getCol acc.2 m := by
  induction names generalizing acc with
  | nil => rfl
  | cons k rest ih =>
    rw [FillMissing.testGo]
    rw [ih _ (fun h => hm (List.mem_cons_of_mem _ h))
      (fun k' hk' => hna k' (List.mem_cons_of_mem _ hk'))]
    exact testStep_getCol_other ac d k acc
      (fun h => hm (h ▸ List.mem_cons_self _ _))
      (hna k (List.mem_cons_self _ _))

theorem testGo_getCol_unrecorded (ac : Bool) (d : List (String × Option ℚ))
    (names : List String) (acc : List String × DataFrame) {m : String}
    (hl : d.lookup m = none) (hna : ∀ k ∈ names, m ≠ k ++ "_na") :
    getCol (FillMissing.testGo ac d names acc).2 m = getCol acc.2 m := by
  induction names generalizing acc with
  | nil => rfl
  | cons k rest ih =>
    rw [FillMissing.testGo]
    rw [ih _ (fun k' hk' => hna k' (List.mem_cons_of_mem _ hk'))]
    by_cases hk : m = k
    · subst hk
      unfold FillMissing.testStep
      rw [hl]
    · exact testStep_getCol_other ac d k acc hk (hna k (List.mem_cons_self _ _))

theorem testGo_getCol_recorded (ac : Bool) (d : List (String × Option ℚ))
    (names : List String) (acc : List String × DataFrame) {name : String}
    {filler : Option ℚ} (hf : d.lookup name = some filler)
    (hmem : name ∈ names) (hnd : names.Nodup)
    (hna : ∀ k ∈ names, name ≠ k ++ "_na") :
    getCol (FillMissing.testGo ac d names acc).2 name =
      (getCol acc.2 name).map (fillCell filler) := by
  induction names generalizing acc with
  | nil => cases hmem
  | cons k rest ih =>
    rw [FillMissing.testGo]
    by_cases hk : name = k
    · subst hk
      have hnotin : name ∉ rest := (List.nodup_cons.mp hnd).1
      rw [testGo_getCol_notin ac d rest _ hnotin
        (fun k' hk' => hna k' (List.mem_cons_of_mem _ hk'))]
      exact testStep_getCol_self ac d name acc hf
    · have hmem' : name ∈ rest := by
        rcases List.mem_cons.mp hmem with h | h
        · exact absurd h hk
        · exact h
      rw [ih _ hmem' (List.nodup_cons.mp hnd).2
        (fun k' hk' => hna k' (List.mem_cons_of_mem _ hk'))]
      rw [testStep_getCol_other ac d k acc hk (hna k (List.mem_cons_self _ _))]

theorem errBind {e a b : Type} (x : e) (f : a → Except e b) :
    (Except.error x >>= f) = Except.error x := rfl

theorem okBind {e a b : Type} (x : a) (f : a → Except e b) :
    (Except.ok x >>= f : Except e b) = f x := rfl

/-- Characterization of one `FillMissing.apply_train` loop iteration. -/
theorem trainStep_cases (strategy : FillStrategy) (fv : ℚ) (ac : Bool)
    (name : String)
    (acc acc' : List (String × Option ℚ) × List String × DataFrame)
    (h : FillMissing.trainStep strategy fv ac name acc = .ok acc') :
    (countNa (getCol acc.2.2 name) = 0 ∧ acc' = acc) ∨
    (countNa (getCol acc.2.2 name) ≠ 0 ∧ ∃ filler,
      computeFiller strategy fv (getCol acc.2.2 name) = Except.ok filler ∧
      acc'.1 = acc.1 ++ [(name, filler)] ∧
      acc'.2.2 = setCol
        (if ac = true then
           setCol acc.2.2 (name ++ "_na") (indicatorCol (getCol acc.2.2 name))
         else acc.2.2)
        name ((getCol acc.2.2 name).map (fillCell filler))) := by
  obtain ⟨nd, cats, df⟩ := acc
  have hdf1 : getCol
      (if ac = true then
         setCol df (name ++ "_na") (indicatorCol (getCol df name))
       else df) name = getCol df name := by
    cases ac with
    | true => rw [if_pos rfl, getCol_setCol_ne _ (ne_append_na name)]
    | false => rw [if_neg Bool.false_ne_true]
  unfold FillMissing.trainStep at h
  dsimp only at h
  by_cases hc : countNa (getCol df name) ≠ 0
  · rw [if_pos hc] at h
    rw [hdf1] at h
    cases hcf : computeFiller strategy fv (getCol df name) with
    | error e => rw [hcf, errBind] at h; exact Except.noConfusion h
    | ok filler =>
      rw [hcf, okBind] at h
      simp only [Except.ok.injEq] at h
      refine Or.inr ⟨hc, filler, rfl, ?_, ?_⟩
      · rw [← h]
      · rw [← h]
  · rw [if_neg hc] at h
    simp only [Except.ok.injEq] at h
    exact Or.inl ⟨not_not.mp hc, h.symm⟩

theorem trainStep_getCol_other (strategy : FillStrategy) (fv : ℚ) (ac : Bool)
    (name : String)
    (acc acc' : List (String × Option ℚ) × List String × DataFrame)
    (h : FillMissing.trainStep strategy fv ac name acc = .ok acc')
    {m : String} (hm : m ≠ name) (hna : m ≠ name ++ "_na") :
    getCol acc'.2.2 m = getCol acc.2.2 m := by
  rcases trainStep_cases strategy fv ac name acc acc' h with
    ⟨_, rfl⟩ | ⟨_, filler, _, _, hdf⟩
  · rfl
  · rw [hdf, getCol_setCol_ne _ hm]
    cases ac with
    | true => rw [if_pos rfl, getCol_setCol_ne _ hna]
    | false => rw [if_neg Bool.false_ne_true]

theorem trainStep_preserves_nafree (strategy : FillStrategy) (fv : ℚ)
    (ac : Bool) (name : String)
    (acc acc' : List (String × Option ℚ) × List String × DataFrame)
    (h : FillMissing.trainStep strategy fv ac name acc = .ok acc')
    {m : String} (hfree : Cell.na ∉ getCol acc.2.2 m) :
    Cell.na ∉ getCol acc'.2.2 m := by
  rcases trainStep_cases strategy fv ac name acc acc' h with
    ⟨_, rfl⟩ | ⟨hcnt, filler, hcf, _, hdf⟩
  · exact hfree
  · by_cases hm : m = name
    · subst hm
      exact absurd (List.count_eq_zero_of_not_mem hfree) hcnt
    · rw [hdf, getCol_setCol_ne _ hm]
      cases ac with
      | true =>
        rw [if_pos rfl]
        by_cases hna : m = name ++ "_na"
        · subst hna
          rw [getCol_setCol_self]
          exact na_not_mem_indicatorCol _
        · rw [getCol_setCol_ne _ hna]
          exact hfree
      | false =>
        rw [if_neg Bool.false_ne_true]
        exact hfree

theorem trainGo_preserves_nafree (strategy : FillStrategy) (fv : ℚ)
    (ac : Bool) (names : List String)
    (acc out : List (String × Option ℚ) × List String × DataFrame)
    (h : FillMissing.trainGo strategy fv ac names acc = .ok out)
    {m : String} (hfree : Cell.na ∉ getCol acc.2.2 m) :
    Cell.na ∉ getCol out.2.2 m := by
  induction names generalizing acc with
  | nil =>
    rw [FillMissing.trainGo] at h
    simp only [Except.ok.injEq] at h
    rw [← h]
    exact hfree
  | cons k rest ih =>
    rw [FillMissing.trainGo] at h
    cases hs : FillMissing.trainStep strategy fv ac k acc with
    | error e => rw [hs, errBind] at h; exact Except.noConfusion h
    | ok acc1 =>
      rw [hs, okBind] at h
      exact ih acc1 h (trainStep_preserves_nafree strategy fv ac k acc acc1 hs hfree)

/-- A continuous column with no missing value in the training dataframe is
skipped by the whole `FillMissing.apply_train` loop: the column is
unchanged and never recorded in `na_dict`. -/
theorem trainGo_untouched (strategy : FillStrategy) (fv : ℚ) (ac : Bool)
    (names : List String)
    (acc out : List (String × Option ℚ) × List String × DataFrame)
    (h : FillMissing.trainGo strategy fv ac names acc = .ok out)
    {m : String} (hfree : Cell.na ∉ getCol acc.2.2 m)
    (hcl : ∀ k ∈ names, m ≠ k ++ "_na") :
    getCol out.2.2 m = getCol acc.2.2 m ∧
      (∀ v, (m, v) ∈ out.1 → (m, v) ∈ acc.1) := by
  induction names generalizing acc with
  | nil =>
    rw [FillMissing.trainGo] at h
    simp only [Except.ok.injEq] at h
    rw [← h]
    exact ⟨rfl, fun v hv => hv⟩
  | cons k rest ih =>
    rw [FillMissing.trainGo] at h
    cases hs : FillMissing.trainStep strategy fv ac k acc with
    | error e => rw [hs, errBind] at h; exact Except.noConfusion h
    | ok acc1 =>
      rw [hs, okBind] at h
      rcases trainStep_cases strategy fv ac k acc acc1 hs with
        ⟨_, rfl⟩ | ⟨hcnt, filler, _, hnd1, _⟩
      · exact ih _ h hfree (fun k' hk' => hcl k' (List.mem_cons_of_mem _ hk'))
      · have hmk : m ≠ k := by
          intro hmk
          subst hmk
          exact hcnt (List.count_eq_zero_of_not_mem hfree)
        have hcol1 : getCol acc1.2.2 m = getCol acc.2.2 m :=
          trainStep_getCol_other strategy fv ac k acc acc1 hs hmk
            (hcl k (List.mem_cons_self _ _))
        have hfree1 : Cell.na ∉ getCol acc1.2.2 m := by
          rw [hcol1]; exact hfree
        rcases ih acc1 h hfree1
          (fun k' hk' => hcl k' (List.mem_cons_of_mem _ hk')) with ⟨h1, h2⟩
        refine ⟨h1.trans hcol1, fun v hv => ?_⟩
        have := h2 v hv
        rw [hnd1] at this
        rcases List.mem_append.mp this with hin | hin
        · exact hin
        · simp only [List.mem_singleton, Prod.mk.injEq] at hin
          exact absurd hin.1 hmk

/-- After the `FillMissing.apply_train` loop, a continuous column that had
a missing value and at least one non-missing numeric value is completely
filled. -/
theorem trainGo_fills (strategy : FillStrategy) (fv : ℚ) (ac : Bool)
    {name : String} (names : List String)
    (acc out : List (String × Option ℚ) × List String × DataFrame)
    (h : FillMissing.trainGo strategy fv ac names acc = .ok out)
    (hmem : name ∈ names) (col₀ : List Cell)
    (hq : getCol acc.2.2 name = col₀ ∨ Cell.na ∉ getCol acc.2.2 name)
    (hna : Cell.na ∈ col₀) (hnn : nonnullNums col₀ ≠ []) :
    Cell.na ∉ getCol out.2.2 name := by
  induction names generalizing acc with
  | nil => cases hmem
  | cons k rest ih =>
    rw [FillMissing.trainGo] at h
    cases hs : FillMissing.trainStep strategy fv ac k acc with
    | error e => rw [hs, errBind] at h; exact Except.noConfusion h
    | ok acc1 =>
      rw [hs, okBind] at h
      by_cases hk : k = name
      · subst hk
        have hfree1 : Cell.na ∉ getCol acc1.2.2 k := by
          rcases hq with heq | hfree
          · rcases trainStep_cases strategy fv ac k acc acc1 hs with
              ⟨hcnt, _⟩ | ⟨_, filler, hcf, _, hdf⟩
            · rw [heq] at hcnt
              exact absurd hcnt (by
                intro hz
                exact (List.count_eq_zero.mp hz) hna)
            · rw [heq] at hcf
              rcases computeFiller_isSome strategy fv col₀ hnn with ⟨q, hq'⟩
              rw [hq'] at hcf
              have hfq : filler = some q := (Except.ok.injEq _ _ ▸ hcf).symm
              intro hmem'
              rw [hdf, getCol_setCol_self] at hmem'
              rcases List.mem_map.mp hmem' with ⟨c, _, hc⟩
              rw [hfq] at hc
              exact fillCell_some_ne_na q c hc
          · rcases trainStep_cases strategy fv ac k acc acc1 hs with
              ⟨_, rfl⟩ | ⟨hcnt, _⟩
            · exact hfree
            · exact absurd (List.count_eq_zero_of_not_mem hfree) hcnt
        exact trainGo_preserves_nafree strategy fv ac rest acc1 out h hfree1
      · have hmem' : name ∈ rest := by
          rcases List.mem_cons.mp hmem with hh | hh
          · exact absurd hh.symm hk
          · exact hh
        rcases trainStep_cases strategy fv ac k acc acc1 hs with
          ⟨_, rfl⟩ | ⟨hcnt, filler, hcf, _, hdf⟩
        · exact ih _ h hmem' hq
        · have hq1 : getCol acc1.2.2 name = getCol acc.2.2 name ∨
              Cell.na ∉ getCol acc1.2.2 name := by
            rw [hdf, getCol_setCol_ne _ (fun hh : name = k => hk hh.symm)]
            cases ac with
            | true =>
              rw [if_pos rfl]
              by_cases hclob : name = k ++ "_na"
              · subst hclob
                rw [getCol_setCol_self]
                exact Or.inr (na_not_mem_indicatorCol _)
              · rw [getCol_setCol_ne _ hclob]
                exact Or.inl rfl
            | false =>
              rw [if_neg Bool.false_ne_true]
              exact Or.inl rfl
          rcases hq1 with heq1 | hfree1
          · rcases hq with heq | hfree
            · exact ih _ h hmem' (Or.inl (heq1.trans heq))
            · exact ih _ h hmem' (Or.inr (by rw [heq1]; exact hfree))
          · exact ih _ h hmem' (Or.inr hfree1)

/-- Concrete computation: the indicator-column name for column `"A"`. -/
theorem a_na_eq : "A" ++ "_na" = "A_na" := rfl

/-- Cells of distinct constructors are distinct. -/
theorem num_ne_na (q : ℚ) : Cell.num q ≠ Cell.na := fun h => Cell.noConfusion h

/-- Cells of distinct constructors are distinct. -/
theorem na_ne_num (q : ℚ) : Cell.na ≠ Cell.num q := fun h => Cell.noConfusion h

/-- Cells of distinct constructors are distinct. -/
theorem bool_ne_na (b : Bool) : Cell.bool b ≠ Cell.na := fun h => Cell.noConfusion h

/-! ## Claim C1 -/

/-- C1: for every continuous column recorded in `FillMissing`'s fitted
`na_dict`, apply-only mode fills that column's missing values with the
filler *stored* in `na_dict` at fit time — the result depends only on the
stored filler and the column's own cells, never on statistics of the split
being applied to. -/
theorem fillMissing_apply_test_uses_train_filler (st : FillMissing)
    (d : List (String × Option ℚ)) (hd : st.na_dict = some d)
    (name : String) (filler : Option ℚ) (hn : name ∈ st.cont_names)
    (hf : d.lookup name = some filler) (hnd : st.cont_names.Nodup)
    (hcl : ∀ m, name ≠ m ++ "_na") (df : DataFrame) :
    (st.apply_test df).map (fun p => getCol p.2 name) =
      .ok ((getCol df name).map (fillCell filler)) := by
  cases hc : st.cont_names with
  | nil => rw [hc] at hn; cases hn
  | cons a rest =>
    have hstep : st.apply_test df =
        .ok ({st with cat_names :=
                (FillMissing.testGo st.add_col d (a :: rest) (st.cat_names, df)).1},
             (FillMissing.testGo st.add_col d (a :: rest) (st.cat_names, df)).2) := by
      unfold FillMissing.apply_test
      rw [hc, hd]
    rw [hstep]
    simp only [Except.map]
    rw [testGo_getCol_recorded st.add_col d (a :: rest) (st.cat_names, df) hf
      (hc ▸ hn) (hc ▸ hnd) (fun k _ => hcl k)]

/-- Witness for C1, the scenario of the claim: fitting on the train column
`[0, 1, 1, NaN, NaN]` stores the train median `1` as the filler, and
apply-only on the valid column `[0, 0, 1, NaN, NaN]` fills with that stored
`1`, producing `[0, 0, 1, 1, 1]`. -/
theorem fillMissing_apply_test_uses_train_filler_witness :
    (FillMissing.apply_train
        { cat_names := [], cont_names := ["A"], add_col := false }
        [("A", [Cell.num 0, Cell.num 1, Cell.num 1, Cell.na, Cell.na])] =
      .ok ({ cat_names := [], cont_names := ["A"], add_col := false,
             na_dict := some [("A", some 1)] },
           [("A", [Cell.num 0, Cell.num 1, Cell.num 1, Cell.num 1, Cell.num 1])])) ∧
    ((FillMissing.apply_test
        { cat_names := [], cont_names := ["A"], add_col := false,
          na_dict := some [("A", some 1)] }
        [("A", [Cell.num 0, Cell.num 0, Cell.num 1, Cell.na, Cell.na])]).map
          (fun p => getCol p.2 "A") =
      .ok [Cell.num 0, Cell.num 0, Cell.num 1, Cell.num 1, Cell.num 1]) := by
  constructor
  · norm_num [FillMissing.apply_train, FillMissing.trainGo, FillMissing.trainStep,
      computeFiller, medianQ, nonnullNums, getCol, setCol, countNa, indicatorCol,
      fillCell, List.insertionSort, List.orderedInsert, List.lookup,
      List.count_cons, List.count_nil, List.filterMap_cons, List.filterMap_nil,
      beq_iff_eq, List.cons_ne_nil, okBind, errBind]
  · have h := fillMissing_apply_test_uses_train_filler
      { cat_names := [], cont_names := ["A"], add_col := false,
        na_dict := some [("A", some 1)] }
      [("A", some 1)] rfl "A" (some 1)
      (by simp) (by rfl) (by simp)
      (fun m => short_ne_append_na (by decide) m)
      [("A", [Cell.num 0, Cell.num 0, Cell.num 1, Cell.na, Cell.na])]
    rw [h]
    rfl

/-! ## Claim C4 -/

/-- C4 counterexample: a continuous column that is *entirely* missing in
the training split still contains missing values after a single
fit-and-apply call.  With the default `MEDIAN` strategy the filler is the
median of an empty sequence (`NaN`), and `fillna(NaN)` fills nothing, so
the claim "every continuous column that had at least one missing value
contains zero missing values" fails on the dataframe `{"A": [NaN, NaN]}`. -/
theorem fillMissing_all_missing_column_stays_missing :
    FillMissing.apply_train
        { cat_names := [], cont_names := ["A"] }
        [("A", [Cell.na, Cell.na])] =
      .ok ({ cat_names := ["A_na"], cont_names := ["A"],
             na_dict := some [("A", none)] },
           [("A", [Cell.na, Cell.na]),
            ("A_na", [Cell.bool true, Cell.bool true])]) ∧
    countNa (getCol [("A", [Cell.na, Cell.na])] "A") ≠ 0 ∧
    countNa (getCol [("A", [Cell.na, Cell.na]),
      ("A_na", [Cell.bool true, Cell.bool true])] "A") ≠ 0 := by
  refine ⟨?_, ?_, ?_⟩
  · norm_num [FillMissing.apply_train, FillMissing.trainGo, FillMissing.trainStep,
      computeFiller, medianQ, nonnullNums, getCol, setCol, countNa, indicatorCol,
      fillCell, List.lookup, List.count_cons, List.count_nil,
      List.filterMap_cons, List.filterMap_nil, beq_iff_eq, okBind, errBind,
      a_na_eq]
  · simp [getCol, List.lookup, countNa, List.count_cons]
  · simp [getCol, List.lookup, countNa, List.count_cons]

/-- C4 (amended): after a single `FillMissing` fit-and-apply call, every
continuous column that had at least one missing value *and at least one
non-missing numeric value* in the training split contains zero missing
values.  (The amendment excludes entirely-missing columns, forced by the
counterexample above; the spec itself flags the all-missing column as a
degenerate-statistics error condition.) -/
theorem fillMissing_fit_leaves_no_missing (st : FillMissing)
    (df : DataFrame) (st' : FillMissing) (df' : DataFrame)
    (h : st.apply_train df = .ok (st', df')) {name : String}
    (hn : name ∈ st.cont_names) (hna : Cell.na ∈ getCol df name)
    (hnn : nonnullNums (getCol df name) ≠ []) :
    Cell.na ∉ getCol df' name := by
  unfold FillMissing.apply_train at h
  cases hg : FillMissing.trainGo st.fill_strategy st.fill_val st.add_col
      st.cont_names ([], st.cat_names, df) with
  | error e => rw [hg, errBind] at h; exact Except.noConfusion h
  | ok out =>
    rw [hg, okBind] at h
    obtain ⟨nd, cats, df''⟩ := out
    simp only [Except.ok.injEq, Prod.mk.injEq] at h
    have hdf : df'' = df' := h.2
    rw [← hdf]
    exact trainGo_fills st.fill_strategy st.fill_val st.add_col
      st.cont_names ([], st.cat_names, df) (nd, cats, df'') hg hn
      (getCol df name) (Or.inl rfl) hna hnn

/-- Witness for the amended C4: fitting on `{"A": [5, NaN]}` fills the
missing entry with the median `5`, and the resulting column has no missing
values. -/
theorem fillMissing_fit_leaves_no_missing_witness :
    ("A" ∈ ["A"] ∧ Cell.na ∈ [Cell.num 5, Cell.na] ∧
      nonnullNums [Cell.num 5, Cell.na] ≠ []) ∧
    Cell.na ∉ getCol
      [("A", [Cell.num 5, Cell.num 5]),
       ("A_na", [Cell.bool false, Cell.bool true])] "A" := by
  have hev : FillMissing.apply_train
      { cat_names := [], cont_names := ["A"] }
      [("A", [Cell.num 5, Cell.na])] =
    .ok ({ cat_names := ["A_na"], cont_names := ["A"],
           na_dict := some [("A", some 5)] },
         [("A", [Cell.num 5, Cell.num 5]),
          ("A_na", [Cell.bool false, Cell.bool true])]) := by
    norm_num [FillMissing.apply_train, FillMissing.trainGo, FillMissing.trainStep,
      computeFiller, medianQ, nonnullNums, getCol, setCol, countNa, indicatorCol,
      fillCell, List.insertionSort, List.orderedInsert, List.lookup,
      List.count_cons, List.count_nil, List.filterMap_cons, List.filterMap_nil,
      beq_iff_eq, List.cons_ne_nil, okBind, errBind, a_na_eq, num_ne_na,
      na_ne_num, bool_ne_na]
  have hcol : getCol [("A", [Cell.num 5, Cell.na])] "A" = [Cell.num 5, Cell.na] := by
    simp [getCol, List.lookup]
  refine ⟨⟨by simp, by decide, by simp [nonnullNums]⟩, ?_⟩
  exact fillMissing_fit_leaves_no_missing
    { cat_names := [], cont_names := ["A"] }
    [("A", [Cell.num 5, Cell.na])] _ _ hev (by simp)
    (by rw [hcol]; decide) (by rw [hcol]; simp [nonnullNums])

/-! ## Claim C5 -/

/-- C5: a continuous column with no missing value in the training split is
left entirely unchanged by fit-and-apply (and is not recorded in
`na_dict`), and a continuous column absent from the fitted `na_dict` is
left entirely unchanged by apply-only — even when the split being applied
to has missing values in it.  (The hypothesis `hcl` rules out the column
name colliding with a generated `_na` indicator name.) -/
theorem fillMissing_no_train_missing_untouched (st : FillMissing)
    (name : String) (hn : name ∈ st.cont_names)
    (hcl : ∀ m, name ≠ m ++ "_na") :
    (∀ df st' df', Cell.na ∉ getCol df name →
      st.apply_train df = .ok (st', df') →
      getCol df' name = getCol df name ∧
        ∀ d, st'.na_dict = some d → d.lookup name = none) ∧
    (∀ df d st' df', st.na_dict = some d → d.lookup name = none →
      st.apply_test df = .ok (st', df') →
      getCol df' name = getCol df name) := by
  constructor
  · intro df st' df' hfree h
    unfold FillMissing.apply_train at h
    cases hg : FillMissing.trainGo st.fill_strategy st.fill_val st.add_col
        st.cont_names ([], st.cat_names, df) with
    | error e => rw [hg, errBind] at h; exact Except.noConfusion h
    | ok out =>
      rw [hg, okBind] at h
      obtain ⟨nd, cats, df''⟩ := out
      simp only [Except.ok.injEq, Prod.mk.injEq] at h
      rcases trainGo_untouched st.fill_strategy st.fill_val st.add_col
        st.cont_names ([], st.cat_names, df) (nd, cats, df'') hg hfree
        (fun k _ => hcl k) with ⟨h1, h2⟩
      refine ⟨?_, ?_⟩
      · rw [← h.2]; exact h1
      · intro d hd
        have : d = nd := by
          rw [← h.1] at hd
          exact (by simpa using hd : nd = d).symm
        subst this
        exact lookup_eq_none_of_not_mem (fun v hv => by
          have := h2 v hv
          simp at this)
  · intro df d st' df' hd hnone h
    cases hc : st.cont_names with
    | nil => rw [hc] at hn; cases hn
    | cons a rest =>
      have hstep : st.apply_test df =
          .ok ({st with cat_names :=
                  (FillMissing.testGo st.add_col d (a :: rest) (st.cat_names, df)).1},
               (FillMissing.testGo st.add_col d (a :: rest) (st.cat_names, df)).2) := by
        unfold FillMissing.apply_test
        rw [hc, hd]
      rw [hstep] at h
      simp only [Except.ok.injEq, Prod.mk.injEq] at h
      rw [← h.2]
      exact testGo_getCol_unrecorded st.add_col d (a :: rest) (st.cat_names, df)
        hnone (fun k _ => hcl k)

/-- Witness for C5: the column `"A"` is `[3, 4]` in training (no missing
value), so fitting records nothing for it; applying to a split whose `"A"`
is `[NaN, 7]` leaves that column unchanged, missing value included. -/
theorem fillMissing_no_train_missing_untouched_witness :
    ("A" ∈ ["A"]) ∧
    (FillMissing.apply_train
        { cat_names := [], cont_names := ["A"] }
        [("A", [Cell.num 3, Cell.num 4])] =
      .ok ({ cat_names := [], cont_names := ["A"], na_dict := some [] },
           [("A", [Cell.num 3, Cell.num 4])])) ∧
    getCol [("A", [Cell.num 3, Cell.num 4])] "A" = [Cell.num 3, Cell.num 4] ∧
    List.lookup "A" ([] : List (String × Option ℚ)) = none ∧
    (FillMissing.apply_test
        { cat_names := [], cont_names := ["A"], na_dict := some [] }
        [("A", [Cell.na, Cell.num 7])] =
      .ok ({ cat_names := [], cont_names := ["A"], na_dict := some [] },
           [("A", [Cell.na, Cell.num 7])])) ∧
    getCol [("A", [Cell.na, Cell.num 7])] "A" = [Cell.na, Cell.num 7] := by
  have htr : FillMissing.apply_train
      { cat_names := [], cont_names := ["A"] }
      [("A", [Cell.num 3, Cell.num 4])] =
    .ok ({ cat_names := [], cont_names := ["A"], na_dict := some [] },
         [("A", [Cell.num 3, Cell.num 4])]) := by
    norm_num [FillMissing.apply_train, FillMissing.trainGo, FillMissing.trainStep,
      computeFiller, medianQ, nonnullNums, getCol, setCol, countNa, indicatorCol,
      fillCell, List.lookup, List.count_cons, List.count_nil,
      List.filterMap_cons, List.filterMap_nil, beq_iff_eq, okBind, errBind,
      num_ne_na, na_ne_num]
  have hte : FillMissing.apply_test
      { cat_names := [], cont_names := ["A"], na_dict := some [] }
      [("A", [Cell.na, Cell.num 7])] =
    .ok ({ cat_names := [], cont_names := ["A"], na_dict := some [] },
         [("A", [Cell.na, Cell.num 7])]) := by
    norm_num [FillMissing.apply_test, FillMissing.testGo, FillMissing.testStep,
      List.lookup]
  have h := fillMissing_no_train_missing_untouched
    { cat_names := [], cont_names := ["A"], na_dict := some [] }
    "A" (by simp) (fun m => short_ne_append_na (by decide) m)
  refine ⟨by simp, htr, ?_, rfl, hte, ?_⟩
  · have h1 := (fillMissing_no_train_missing_untouched
      { cat_names := [], cont_names := ["A"] } "A" (by simp)
      (fun m => short_ne_append_na (by decide) m)).1
      [("A", [Cell.num 3, Cell.num 4])] _ _ (by simp [getCol, List.lookup]) htr
    exact h1.1.trans (by simp [getCol, List.lookup])
  · have h2 := h.2 [("A", [Cell.na, Cell.num 7])] [] _ _ rfl rfl hte
    simpa [getCol, List.lookup] using h2

/-! ## Lemmas about `Normalize` -/

theorem normTrainGo_getCol_notin (sq : ℚ → ℚ) (names : List String)
    (acc : List (String × ℚ) × List (String × ℚ) × DataFrame) {m : String}
    (hm : m ∉ names) :
    getCol (Normalize.trainGo sq names acc).2.2 m = getCol acc.2.2 m := by
  induction names generalizing acc with
  | nil => rfl
  | cons k rest ih =>
    rw [Normalize.trainGo]
    rw [ih _ (fun h => hm (List.mem_cons_of_mem _ h))]
    unfold Normalize.trainStep
    obtain ⟨ms, ss, df⟩ := acc
    dsimp only
    rw [getCol_setCol_ne _ (fun h : m = k => hm (h ▸ List.mem_cons_self _ _))]

theorem normTrainGo_getCol_mem (sq : ℚ → ℚ) (names : List String)
    (acc : List (String × ℚ) × List (String × ℚ) × DataFrame) {n : String}
    (hmem : n ∈ names) (hnd : names.Nodup) :
    getCol (Normalize.trainGo sq names acc).2.2 n =
      (getCol acc.2.2 n).map
        (normCell (meanQ (nonnullNums (getCol acc.2.2 n)))
          (sq (varQ (nonnullNums (getCol acc.2.2 n))))) := by
  induction names generalizing acc with
  | nil => cases hmem
  | cons k rest ih =>
    rw [Normalize.trainGo]
    by_cases hk : k = n
    · subst hk
      have hnotin : k ∉ rest := (List.nodup_cons.mp hnd).1
      rw [normTrainGo_getCol_notin sq rest _ hnotin]
      unfold Normalize.trainStep
      obtain ⟨ms, ss, df⟩ := acc
      dsimp only
      rw [getCol_setCol_self]
    · have hmem' : n ∈ rest := by
        rcases List.mem_cons.mp hmem with h | h
        · exact absurd h.symm hk
        · exact h
      have hcol : getCol (Normalize.trainStep sq k acc).2.2 n = getCol acc.2.2 n := by
        unfold Normalize.trainStep
        obtain ⟨ms, ss, df⟩ := acc
        dsimp only
        rw [getCol_setCol_ne _ (fun h : n = k => hk h.symm)]
      rw [ih _ hmem' (List.nodup_cons.mp hnd).2, hcol]

theorem normTrainGo_stats (sq : ℚ → ℚ) (names : List String)
    (acc : List (String × ℚ) × List (String × ℚ) × DataFrame) (df₀ : DataFrame)
    (hnd : names.Nodup) (hcols : ∀ k ∈ names, getCol acc.2.2 k = getCol df₀ k) :
    (Normalize.trainGo sq names acc).1 =
      acc.1 ++ names.map (fun n => (n, meanQ (nonnullNums (getCol df₀ n)))) ∧
    (Normalize.trainGo sq names acc).2.1 =
      acc.2.1 ++ names.map (fun n => (n, sq (varQ (nonnullNums (getCol df₀ n))))) := by
  induction names generalizing acc with
  | nil => simp [Normalize.trainGo]
  | cons k rest ih =>
    rw [Normalize.trainGo]
    have hk0 : getCol acc.2.2 k = getCol df₀ k := hcols k (List.mem_cons_self _ _)
    have hcols' : ∀ k' ∈ rest, getCol (Normalize.trainStep sq k acc).2.2 k' = getCol df₀ k' := by
      intro k' hk'
      have hne : k' ≠ k := by
        intro hh
        exact (List.nodup_cons.mp hnd).1 (hh ▸ hk')
      have : getCol (Normalize.trainStep sq k acc).2.2 k' = getCol acc.2.2 k' := by
        unfold Normalize.trainStep
        obtain ⟨ms, ss, df⟩ := acc
        dsimp only
        rw [getCol_setCol_ne _ hne]
      rw [this]
      exact hcols k' (List.mem_cons_of_mem _ hk')
    rcases ih _ (List.nodup_cons.mp hnd).2 hcols' with ⟨h1, h2⟩
    have hstep1 : (Normalize.trainStep sq k acc).1 =
        acc.1 ++ [(k, meanQ (nonnullNums (getCol df₀ k)))] := by
      unfold Normalize.trainStep
      obtain ⟨ms, ss, df⟩ := acc
      dsimp only
      rw [hk0]
    have hstep2 : (Normalize.trainStep sq k acc).2.1 =
        acc.2.1 ++ [(k, sq (varQ (nonnullNums (getCol df₀ k))))] := by
      unfold Normalize.trainStep
      obtain ⟨ms, ss, df⟩ := acc
      dsimp only
      rw [hk0]
    constructor
    · rw [h1, hstep1]
      simp
    · rw [h2, hstep2]
      simp

theorem normTestGo_getCol_notin (ms ss : List (String × ℚ))
    (names : List String) (df df' : DataFrame) {m : String} (hm : m ∉ names)
    (h : Normalize.testGo ms ss names df = .ok df') :
    getCol df' m = getCol df m := by
  induction names generalizing df with
  | nil =>
    rw [Normalize.testGo] at h
    simp only [Except.ok.injEq] at h
    rw [← h]
  | cons k rest ih =>
    rw [Normalize.testGo] at h
    cases hs : Normalize.testStep ms ss k df with
    | error e => rw [hs, errBind] at h; exact Except.noConfusion h
    | ok df1 =>
      rw [hs, okBind] at h
      have hcol : getCol df1 m = getCol df m := by
        unfold Normalize.testStep at hs
        rcases hms : ms.lookup k with _ | mk <;> rw [hms] at hs <;>
          rcases hss : ss.lookup k with _ | sk <;> rw [hss] at hs <;>
            try exact Except.noConfusion hs
        simp only [Except.ok.injEq] at hs
        rw [← hs, getCol_setCol_ne _ (fun hh : m = k => hm (hh ▸ List.mem_cons_self _ _))]
      rw [ih _ (fun hh => hm (List.mem_cons_of_mem _ hh)) h, hcol]

theorem normTestGo_getCol_mem (ms ss : List (String × ℚ))
    (names : List String) (df df' : DataFrame) {n : String} {m s : ℚ}
    (hmem : n ∈ names) (hnd : names.Nodup) (hm : ms.lookup n = some m)
    (hs : ss.lookup n = some s)
    (h : Normalize.testGo ms ss names df = .ok df') :
    getCol df' n = (getCol df n).map (normCell m s) := by
  induction names generalizing df with
  | nil => cases hmem
  | cons k rest ih =>
    rw [Normalize.testGo] at h
    cases hst : Normalize.testStep ms ss k df with
    | error e => rw [hst, errBind] at h; exact Except.noConfusion h
    | ok df1 =>
      rw [hst, okBind] at h
      by_cases hk : k = n
      · subst hk
        have hdf1 : df1 = setCol df k ((getCol df k).map (normCell m s)) := by
          unfold Normalize.testStep at hst
          rw [hm, hs] at hst
          simp only [Except.ok.injEq] at hst
          exact hst.symm
        have hnotin : k ∉ rest := (List.nodup_cons.mp hnd).1
        rw [normTestGo_getCol_notin ms ss rest df1 df' hnotin h, hdf1,
          getCol_setCol_self]
      · have hmem' : n ∈ rest := by
          rcases List.mem_cons.mp hmem with hh | hh
          · exact absurd hh.symm hk
          · exact hh
        have hcol : getCol df1 n = getCol df n := by
          unfold Normalize.testStep at hst
          rcases hms : ms.lookup k with _ | mk <;> rw [hms] at hst <;>
            rcases hss : ss.lookup k with _ | sk <;> rw [hss] at hst <;>
              try exact Except.noConfusion hst
          simp only [Except.ok.injEq] at hst
          rw [← hst, getCol_setCol_ne _ (fun hh : n = k => hk hh.symm)]
        rw [ih _ hmem' (List.nodup_cons.mp hnd).2 h, hcol]

/-! ## Claim C6 -/

/-- C6: `Normalize` fit computes each continuous column's training-split
mean and standard deviation (the `sq`-root of the `ddof = 1` variance),
stores them keyed by column name, and standardizes every value `v` to
`(v - mean) / (std + 1e-7)`; apply-only standardizes with the *stored*
training mean/std — not statistics of the split being applied to — by the
identical formula with the identical `ε = 1e-7`. -/
theorem normalize_uses_train_stats_and_epsilon (sq : ℚ → ℚ) (st : Normalize)
    (hnd : st.cont_names.Nodup) :
    (∀ df,
      (Normalize.apply_train sq st df).1.means =
        some (st.cont_names.map
          (fun n => (n, meanQ (nonnullNums (getCol df n))))) ∧
      (Normalize.apply_train sq st df).1.stds =
        some (st.cont_names.map
          (fun n => (n, sq (varQ (nonnullNums (getCol df n)))))) ∧
      ∀ n ∈ st.cont_names,
        getCol (Normalize.apply_train sq st df).2 n =
          (getCol df n).map
            (normCell (meanQ (nonnullNums (getCol df n)))
              (sq (varQ (nonnullNums (getCol df n)))))) ∧
    (∀ df ms ss n m s df', st.means = some ms → st.stds = some ss →
      n ∈ st.cont_names → ms.lookup n = some m → ss.lookup n = some s →
      st.apply_test df = .ok df' →
      getCol df' n = (getCol df n).map (normCell m s)) ∧
    (∀ q m s, normCell m s (Cell.num q) =
      Cell.num ((q - m) / (s + 1 / 10000000))) := by
  refine ⟨?_, ?_, ?_⟩
  · intro df
    rcases normTrainGo_stats sq st.cont_names ([], [], df) df hnd
      (fun k _ => rfl) with ⟨h1, h2⟩
    refine ⟨?_, ?_, ?_⟩
    · unfold Normalize.apply_train
      dsimp only
      rw [h1]
      simp
    · unfold Normalize.apply_train
      dsimp only
      rw [h2]
      simp
    · intro n hn
      unfold Normalize.apply_train
      dsimp only
      exact normTrainGo_getCol_mem sq st.cont_names ([], [], df) hn hnd
  · intro df ms ss n m s df' hms hss hn hlm hls h
    cases hc : st.cont_names with
    | nil => rw [hc] at hn; cases hn
    | cons a rest =>
      have hrun : st.apply_test df = Normalize.testGo ms ss (a :: rest) df := by
        unfold Normalize.apply_test
        rw [hc, hms, hss]
      rw [hrun] at h
      exact normTestGo_getCol_mem ms ss (a :: rest) df df' (hc ▸ hn)
        (hc ▸ hnd) hlm hls h
  · intro q m s
    unfold normCell
    rw [add_comm]

/-- Witness for C6: fitting on the column `[1, 2, 3]` stores mean `2` and
std `1` (variance `1`, `sq = id`), standardizes the training column with
`ε = 1e-7`, and apply-only standardizes the fresh value `12` with the
*stored* mean/std: `(12 - 2) / (1 + 1e-7) = 100000000 / 10000001`. -/
theorem normalize_uses_train_stats_and_epsilon_witness :
    ((Normalize.apply_train (fun q => q)
        { cat_names := [], cont_names := ["A"] }
        [("A", [Cell.num 1, Cell.num 2, Cell.num 3])]).1.means =
      some [("A", 2)]) ∧
    ((Normalize.apply_train (fun q => q)
        { cat_names := [], cont_names := ["A"] }
        [("A", [Cell.num 1, Cell.num 2, Cell.num 3])]).1.stds =
      some [("A", 1)]) ∧
    (Normalize.apply_test
        { cat_names := [], cont_names := ["A"],
          means := some [("A", 2)], stds := some [("A", 1)] }
        [("A", [Cell.num 12])] =
      .ok [("A", [Cell.num (100000000 / 10000001)])]) := by
  have h := normalize_uses_train_stats_and_epsilon (fun q => q)
    { cat_names := [], cont_names := ["A"] } (by simp)
  have h2 := normalize_uses_train_stats_and_epsilon (fun q => q)
    { cat_names := [], cont_names := ["A"],
      means := some [("A", 2)], stds := some [("A", 1)] } (by simp)
  refine ⟨?_, ?_, ?_⟩
  · rw [(h.1 [("A", [Cell.num 1, Cell.num 2, Cell.num 3])]).1]
    norm_num [getCol, List.lookup, nonnullNums, List.filterMap_cons, meanQ]
  · rw [(h.1 [("A", [Cell.num 1, Cell.num 2, Cell.num 3])]).2.1]
    norm_num [getCol, List.lookup, nonnullNums, List.filterMap_cons, varQ, meanQ]
  · norm_num [Normalize.apply_test, Normalize.testGo, Normalize.testStep,
      List.lookup, okBind, errBind, getCol, setCol, normCell]

/-! ## Lemmas about `Categorify` -/

theorem catTestGo_getCol_notin (cs : List (String × List Cell))
    (names : List String) (df df' : DataFrame) {m : String} (hm : m ∉ names)
    (h : Categorify.testGo cs names df = .ok df') :
    getCol df' m = getCol df m := by
  induction names generalizing df with
  | nil =>
    rw [Categorify.testGo] at h
    simp only [Except.ok.injEq] at h
    rw [← h]
  | cons k rest ih =>
    rw [Categorify.testGo] at h
    cases hs : Categorify.testStep cs k df with
    | error e => rw [hs, errBind] at h; exact Except.noConfusion h
    | ok df1 =>
      rw [hs, okBind] at h
      have hcol : getCol df1 m = getCol df m := by
        unfold Categorify.testStep at hs
        rcases hcs : cs.lookup k with _ | cats <;> rw [hcs] at hs
        · exact Except.noConfusion hs
        · simp only [Except.ok.injEq] at hs
          rw [← hs, getCol_setCol_ne _
            (fun hh : m = k => hm (hh ▸ List.mem_cons_self _ _))]
      rw [ih _ (fun hh => hm (List.mem_cons_of_mem _ hh)) h, hcol]

theorem catTestGo_getCol_mem (cs : List (String × List Cell))
    (names : List String) (df df' : DataFrame) {n : String} {cats : List Cell}
    (hcs : cs.lookup n = some cats) (hmem : n ∈ names) (hnd : names.Nodup)
    (h : Categorify.testGo cs names df = .ok df') :
    getCol df' n = (getCol df n).map
      (fun v => if v ∈ cats then v else Cell.na) := by
  induction names generalizing df with
  | nil => cases hmem
  | cons k rest ih =>
    rw [Categorify.testGo] at h
    cases hs : Categorify.testStep cs k df with
    | error e => rw [hs, errBind] at h; exact Except.noConfusion h
    | ok df1 =>
      rw [hs, okBind] at h
      by_cases hk : k = n
      · subst hk
        have hdf1 : df1 = setCol df k ((getCol df k).map
            (fun v => if v ∈ cats then v else Cell.na)) := by
          unfold Categorify.testStep at hs
          rw [hcs] at hs
          simp only [Except.ok.injEq] at hs
          exact hs.symm
        have hnotin : k ∉ rest := (List.nodup_cons.mp hnd).1
        rw [catTestGo_getCol_notin cs rest df1 df' hnotin h, hdf1,
          getCol_setCol_self]
      · have hmem' : n ∈ rest := by
          rcases List.mem_cons.mp hmem with hh | hh
          · exact absurd hh.symm hk
          · exact hh
        have hcol : getCol df1 n = getCol df n := by
          unfold Categorify.testStep at hs
          rcases hcsk : cs.lookup k with _ | catsk <;> rw [hcsk] at hs
          · exact Except.noConfusion hs
          · simp only [Except.ok.injEq] at hs
            rw [← hs, getCol_setCol_ne _ (fun hh : n = k => hk hh.symm)]
        rw [ih _ hmem' (List.nodup_cons.mp hnd).2 h, hcol]

theorem catTestGo_ok (cs : List (String × List Cell)) (names : List String)
    (df : DataFrame) (hall : ∀ m ∈ names, (cs.lookup m).isSome) :
    ∃ df', Categorify.testGo cs names df = .ok df' := by
  induction names generalizing df with
  | nil => exact ⟨df, rfl⟩
  | cons k rest ih =>
    rcases Option.isSome_iff_exists.mp (hall k (List.mem_cons_self _ _)) with
      ⟨cats, hcats⟩
    have hs : Categorify.testStep cs k df =
        .ok (setCol df k ((getCol df k).map
          (fun v => if v ∈ cats then v else Cell.na))) := by
      unfold Categorify.testStep
      rw [hcats]
    rcases ih (setCol df k ((getCol df k).map
        (fun v => if v ∈ cats then v else Cell.na)))
      (fun m hm => hall m (List.mem_cons_of_mem _ hm)) with ⟨df', hdf'⟩
    refine ⟨df', ?_⟩
    rw [Categorify.testGo, hs, okBind]
    exact hdf'

/-! ## Claim C7 -/

/-- C7: `Categorify` apply-only recodes every categorical column against
the vocabulary stored at fit time: a value in the stored vocabulary is
kept, a value not present (an unseen category) becomes the
missing/undefined category code, and the call never raises; columns
outside `cat_names` (in particular the continuous ones) are untouched, and
fit-and-apply leaves all cell values unchanged (it only retags dtypes). -/
theorem categorify_recode_against_stored_vocabulary (st : Categorify)
    (cs : List (String × List Cell)) (hcs : st.categories = some cs)
    (hnd : st.cat_names.Nodup)
    (hall : ∀ m ∈ st.cat_names, (cs.lookup m).isSome) (df : DataFrame) :
    (∃ df', st.apply_test df = .ok df' ∧
      (∀ n cats, n ∈ st.cat_names → cs.lookup n = some cats →
        getCol df' n = (getCol df n).map
          (fun v => if v ∈ cats then v else Cell.na)) ∧
      (∀ m, m ∉ st.cat_names → getCol df' m = getCol df m)) ∧
    (st.apply_train df).2 = df := by
  constructor
  · cases hc : st.cat_names with
    | nil =>
      refine ⟨df, ?_, ?_, ?_⟩
      · unfold Categorify.apply_test
        rw [hc]
      · intro n cats hn _
        cases hn
      · intro m _
        rfl
    | cons a rest =>
      rcases catTestGo_ok cs (a :: rest) df (hc ▸ hall) with ⟨df', hdf'⟩
      have hrun : st.apply_test df = Categorify.testGo cs (a :: rest) df := by
        unfold Categorify.apply_test
        rw [hc, hcs]
      refine ⟨df', hrun.trans hdf', ?_, ?_⟩
      · intro n cats hn hcats
        exact catTestGo_getCol_mem cs (a :: rest) df df' hcats (hc ▸ hn)
          (hc ▸ hnd) hdf'
      · intro m hm
        exact catTestGo_getCol_notin cs (a :: rest) df df' (hc ▸ hm) hdf'
  · rfl

/-- Witness for C7: with stored vocabulary `["a", "b"]` for column `"A"`,
apply-only keeps the seen value `"b"`, recodes the unseen value `"c"` and
the missing value to the undefined-category code, leaves the continuous
column `"X"` untouched, and does not raise; fit-and-apply leaves the cell
values unchanged. -/
theorem categorify_recode_against_stored_vocabulary_witness :
    (Categorify.apply_test
        { cat_names := ["A"], cont_names := ["X"],
          categories := some [("A", [Cell.str "a", Cell.str "b"])] }
        [("A", [Cell.str "b", Cell.str "c", Cell.na]), ("X", [Cell.num 5])] =
      .ok [("A", [Cell.str "b", Cell.na, Cell.na]), ("X", [Cell.num 5])]) ∧
    ((Categorify.apply_train
        { cat_names := ["A"], cont_names := ["X"],
          categories := some [("A", [Cell.str "a", Cell.str "b"])] }
        [("A", [Cell.str "b", Cell.str "c", Cell.na]), ("X", [Cell.num 5])]).2 =
      [("A", [Cell.str "b", Cell.str "c", Cell.na]), ("X", [Cell.num 5])]) := by
  constructor
  · norm_num [Categorify.apply_test, Categorify.testGo, Categorify.testStep,
      List.lookup, okBind, errBind, getCol, setCol]
    intro h
    rcases h with h | h <;> exact absurd h (by decide)
  · exact (categorify_recode_against_stored_vocabulary
      { cat_names := ["A"], cont_names := ["X"],
        categories := some [("A", [Cell.str "a", Cell.str "b"])] }
      [("A", [Cell.str "a", Cell.str "b"])] rfl (by simp)
      (by intro m hm; simp at hm; subst hm; rfl)
      [("A", [Cell.str "b", Cell.str "c", Cell.na]), ("X", [Cell.num 5])]).2

/-! ## Lemmas about `RemoveMinVariance` -/

theorem contGo_subset (st : RemoveMinVariance) (df : DataFrame)
    (names acc out : List String)
    (h : RemoveMinVariance.contGo st df names acc = .ok out) :
    ∀ x ∈ out, x ∈ acc ∨ x ∈ names := by
  induction names generalizing acc with
  | nil =>
    rw [RemoveMinVariance.contGo] at h
    simp only [Except.ok.injEq] at h
    intro x hx
    exact Or.inl (h ▸ hx)
  | cons k rest ih =>
    rw [RemoveMinVariance.contGo] at h
    split at h
    · exact Except.noConfusion h
    · intro x hx
      rcases ih _ h x hx with hin | hin
      · split at hin
        · rcases List.mem_append.mp hin with hin' | hin'
          · exact Or.inl hin'
          · simp only [List.mem_singleton] at hin'
            exact Or.inr (hin' ▸ List.mem_cons_self _ _)
        · exact Or.inl hin
      · exact Or.inr (List.mem_cons_of_mem _ hin)

theorem catGo_mem_iff (st : RemoveMinVariance) (df : DataFrame)
    (names acc out : List String)
    (h : RemoveMinVariance.catGo st df names acc = .ok out) (x : String) :
    x ∈ out ↔ x ∈ acc ∨
      (x ∈ names ∧ st.catDropCond df x ∧ st.remove_cols = true) := by
  induction names generalizing acc with
  | nil =>
    rw [RemoveMinVariance.catGo] at h
    simp only [Except.ok.injEq] at h
    subst h
    simp
  | cons k rest ih =>
    rw [RemoveMinVariance.catGo] at h
    cases hr : get_freq_ratio (getCol df k) with
    | error e => rw [hr, errBind] at h; exact Except.noConfusion h
    | ok r =>
      rw [hr, okBind] at h
      rw [ih _ h]
      by_cases hcond : ((st.freq_cut : WithTop ℚ) < r ∧
          get_percent_of_uniq_vals (getCol df k) < st.uniq_cut) ∧
          st.remove_cols = true
      · rw [if_pos hcond]
        constructor
        · rintro (hin | hin)
          · rcases List.mem_append.mp hin with hin' | hin'
            · exact Or.inl hin'
            · simp only [List.mem_singleton] at hin'
              subst hin'
              exact Or.inr ⟨List.mem_cons_self _ _,
                ⟨r, hr, hcond.1.1, hcond.1.2⟩, hcond.2⟩
          · exact Or.inr ⟨List.mem_cons_of_mem _ hin.1, hin.2⟩
        · rintro (hin | ⟨hmem, hdc, hrc⟩)
          · exact Or.inl (List.mem_append_left _ hin)
          · rcases List.mem_cons.mp hmem with hxk | hxrest
            · subst hxk
              exact Or.inl (List.mem_append_right _ (List.mem_singleton.mpr rfl))
            · exact Or.inr ⟨hxrest, hdc, hrc⟩
      · rw [if_neg hcond]
        constructor
        · rintro (hin | hin)
          · exact Or.inl hin
          · exact Or.inr ⟨List.mem_cons_of_mem _ hin.1, hin.2⟩
        · rintro (hin | ⟨hmem, hdc, hrc⟩)
          · exact Or.inl hin
          · rcases List.mem_cons.mp hmem with hxk | hxrest
            · subst hxk
              rcases hdc with ⟨r', hr', hlt, hpct⟩
              rw [hr] at hr'
              have : r' = r := by
                have hh : r = r' := by simpa using hr'
                exact hh.symm
              subst this
              exact absurd ⟨⟨hlt, hpct⟩, hrc⟩ hcond
            · exact Or.inr ⟨hxrest, hdc, hrc⟩

/-- Membership in the recorded `cols_to_drop` after a
`RemoveMinVariance` fit, for a name that is not a continuous column. -/
theorem rmv_train_drops_mem (st st' : RemoveMinVariance) (df df' : DataFrame)
    (h : st.apply_train df = .ok (st', df')) {n : String}
    (hnc : n ∉ st.cont_names) (drops : List String)
    (hd : st'.cols_to_drop = some drops) :
    (n ∈ drops ↔ n ∈ st.cat_names ∧ st.catDropCond df n ∧
      st.remove_cols = true) := by
  unfold RemoveMinVariance.apply_train at h
  cases hcd : RemoveMinVariance.contGo st df st.cont_names [] with
  | error e => rw [hcd, errBind] at h; exact Except.noConfusion h
  | ok cd =>
    rw [hcd, okBind] at h
    cases hkd : RemoveMinVariance.catGo st df st.cat_names [] with
    | error e => rw [hkd, errBind] at h; exact Except.noConfusion h
    | ok kd =>
      rw [hkd, okBind] at h
      simp only [Except.ok.injEq, Prod.mk.injEq] at h
      have hst' : st'.cols_to_drop = some (cd ++ kd) := by
        rw [← h.1]
      rw [hst'] at hd
      have hdrops : drops = cd ++ kd := by
        simpa using hd.symm
      subst hdrops
      constructor
      · intro hmem
        rcases List.mem_append.mp hmem with hin | hin
        · rcases contGo_subset st df st.cont_names [] cd hcd n hin with h0 | h0
          · cases h0
          · exact absurd h0 hnc
        · rcases (catGo_mem_iff st df st.cat_names [] kd hkd n).mp hin with
            h0 | h0
          · cases h0
          · exact h0
      · intro hcond
        exact List.mem_append_right _
          ((catGo_mem_iff st df st.cat_names [] kd hkd n).mpr (Or.inr hcond))

/-- On a column with at least two distinct non-missing values, the
frequency ratio of `get_freq_ratio` is a difference of two relative
frequencies and hence a rational number at most `1`. -/
theorem get_freq_ratio_le_one {col : List Cell}
    (h2 : 2 ≤ (nonNull col).dedup.length) :
    ∃ x : ℚ, get_freq_ratio col = .ok (x : WithTop ℚ) ∧ x ≤ 1 := by
  unfold get_freq_ratio
  have hlen : (List.insertionSort (fun a b => a ≥ b)
      ((nonNull col).dedup.map (fun v => (nonNull col).count v))).length =
      (nonNull col).dedup.length := by
    rw [List.length_insertionSort, List.length_map]
  cases hcs : List.insertionSort (fun a b => a ≥ b)
      ((nonNull col).dedup.map (fun v => (nonNull col).count v)) with
  | nil => rw [hcs] at hlen; simp at hlen; omega
  | cons c1 t =>
    cases t with
    | nil => rw [hcs] at hlen; simp at hlen; omega
    | cons c2 rest =>
      have hif : ¬ (c1 :: c2 :: rest).length = 1 := by simp
      simp only [hcs]
      rw [if_neg hif]
      refine ⟨((c1 : ℚ) - (c2 : ℚ)) / ((nonNull col).length : ℚ), rfl, ?_⟩
      have hc1mem : c1 ∈ (nonNull col).dedup.map
          (fun v => (nonNull col).count v) := by
        have : c1 ∈ List.insertionSort (fun a b => a ≥ b)
            ((nonNull col).dedup.map (fun v => (nonNull col).count v)) := by
          rw [hcs]; exact List.mem_cons_self _ _
        exact (List.perm_insertionSort _ _).mem_iff.mp this
      rcases List.mem_map.mp hc1mem with ⟨v, hv, hcount⟩
      have hc1le : c1 ≤ (nonNull col).length := by
        rw [← hcount]
        exact List.count_le_length _ _
      have hvcol : v ∈ nonNull col := List.mem_dedup.mp hv
      have hNpos : 0 < (nonNull col).length := List.length_pos.mpr
        (List.ne_nil_of_mem hvcol)
      have hNposQ : (0 : ℚ) < ((nonNull col).length : ℚ) := by
        exact_mod_cast hNpos
      rw [div_le_one hNposQ]
      have hc1leQ : (c1 : ℚ) ≤ ((nonNull col).length : ℚ) := by
        exact_mod_cast hc1le
      have hc2nn : (0 : ℚ) ≤ (c2 : ℚ) := by positivity
      linarith

/-- `dedup` of a nonempty constant list is the singleton. -/
theorem dedup_replicate_succ (c : Cell) (k : ℕ) :
    (List.replicate (k + 1) c).dedup = [c] := by
  induction k with
  | zero => rfl
  | succ k ih =>
    rw [List.replicate_succ, List.dedup_cons_of_mem
      (List.mem_replicate.mpr ⟨by omega, rfl⟩), ih]

/-! ## Claim C2 -/

/-- C2: `RemoveMinVariance` apply-only drops exactly the column set
recorded in `cols_to_drop` during fit: the resulting dataframe is the
input with precisely the recorded columns removed, independent of any
statistic of the dataframe being applied to. -/
theorem rmv_apply_test_drops_exactly_recorded (st : RemoveMinVariance)
    (cols : List String) (hc : st.cols_to_drop = some cols)
    (df df' : DataFrame) (h : st.apply_test df = .ok df') :
    df' = dropCols df cols := by
  unfold RemoveMinVariance.apply_test at h
  rw [hc] at h
  dsimp only at h
  split at h
  · simp only [Except.ok.injEq] at h
    exact h.symm
  · exact Except.noConfusion h

/-- Witness for C2, the scenario of the repository's own test: the fitted
state recorded `["B"]`, and applying to a dataframe where column `"A"` has
zero variance and `"B"` does not still drops exactly `"B"`. -/
theorem rmv_apply_test_drops_exactly_recorded_witness :
    (RemoveMinVariance.apply_test
        { cat_names := [], cont_names := ["A", "B"], cols_to_drop := some ["B"] }
        [("A", [Cell.num 0, Cell.num 0]), ("B", [Cell.num 0, Cell.num 1])] =
      .ok [("A", [Cell.num 0, Cell.num 0])]) ∧
    dropCols [("A", [Cell.num 0, Cell.num 0]), ("B", [Cell.num 0, Cell.num 1])]
        ["B"] = [("A", [Cell.num 0, Cell.num 0])] := by
  have hev : RemoveMinVariance.apply_test
      { cat_names := [], cont_names := ["A", "B"], cols_to_drop := some ["B"] }
      [("A", [Cell.num 0, Cell.num 0]), ("B", [Cell.num 0, Cell.num 1])] =
      .ok (dropCols
        [("A", [Cell.num 0, Cell.num 0]), ("B", [Cell.num 0, Cell.num 1])]
        ["B"]) := by
    simp only [RemoveMinVariance.apply_test]
    rw [if_pos (by decide)]
  have hdrop : dropCols
      [("A", [Cell.num 0, Cell.num 0]), ("B", [Cell.num 0, Cell.num 1])]
      ["B"] = [("A", [Cell.num 0, Cell.num 0])] := by decide
  have h := rmv_apply_test_drops_exactly_recorded
    { cat_names := [], cont_names := ["A", "B"], cols_to_drop := some ["B"] }
    ["B"] rfl
    [("A", [Cell.num 0, Cell.num 0]), ("B", [Cell.num 0, Cell.num 1])]
    (dropCols [("A", [Cell.num 0, Cell.num 0]), ("B", [Cell.num 0, Cell.num 1])]
      ["B"]) hev
  exact ⟨hev.trans (by rw [hdrop]), hdrop⟩

/-! ## Claim C3 -/

/-- C3: during `RemoveMinVariance` fit, a categorical column (a name in
`cat_names` and not in `cont_names`) is recorded in the to-drop list if
and only if the drop flag is set and its frequency ratio exceeds
`freq_cut` while its percentage of unique values is below `uniq_cut`
(both conditions required); moreover a single-valued column does not
crash the frequency-ratio computation — it evaluates to `+∞` (`⊤`). -/
theorem rmv_cat_drop_iff (st st' : RemoveMinVariance) (df df' : DataFrame)
    (h : st.apply_train df = .ok (st', df')) (n : String)
    (hn : n ∈ st.cat_names) (hnc : n ∉ st.cont_names) (drops : List String)
    (hd : st'.cols_to_drop = some drops) :
    (n ∈ drops ↔ st.remove_cols = true ∧ st.catDropCond df n) ∧
    (∀ (c : Cell) (k : ℕ), c ≠ Cell.na →
      get_freq_ratio (List.replicate (k + 1) c) = .ok ⊤) := by
  constructor
  · rw [rmv_train_drops_mem st st' df df' h hnc drops hd]
    constructor
    · rintro ⟨_, hdc, hrc⟩
      exact ⟨hrc, hdc⟩
    · rintro ⟨hrc, hdc⟩
      exact ⟨hn, hdc, hrc⟩
  · intro c k hc
    have hnn : nonNull (List.replicate (k + 1) c) = List.replicate (k + 1) c :=
      List.filter_eq_self.mpr
        (fun a ha => by
          rw [(List.mem_replicate.mp ha).2]
          simpa using hc)
    unfold get_freq_ratio
    simp only [hnn, dedup_replicate_succ]
    simp [List.insertionSort]

/-- Witness for C3: a column holding eleven copies of `"a"` (single
distinct value, hence frequency ratio `+∞ > 19`, and unique-value
percentage `100/11 < 10`) is dropped by fit, and its frequency ratio
computes to `⊤` without error. -/
theorem rmv_cat_drop_iff_witness :
    (RemoveMinVariance.apply_train
        { cat_names := ["A"], cont_names := [] }
        [("A", List.replicate 11 (Cell.str "a"))] =
      .ok ({ cat_names := ["A"], cont_names := [], cols_to_drop := some ["A"] },
           [])) ∧
    get_freq_ratio (List.replicate 11 (Cell.str "a")) = .ok ⊤ := by
  have hev : RemoveMinVariance.apply_train
      { cat_names := ["A"], cont_names := [] }
      [("A", List.replicate 11 (Cell.str "a"))] =
    .ok ({ cat_names := ["A"], cont_names := [], cols_to_drop := some ["A"] },
         []) := by
    norm_num [RemoveMinVariance.apply_train, RemoveMinVariance.contGo,
      RemoveMinVariance.catGo, get_freq_ratio, get_percent_of_uniq_vals,
      nonNull, getCol, List.lookup, List.replicate, List.dedup_cons_of_mem,
      List.insertionSort, List.orderedInsert, List.count_cons, List.count_nil,
      okBind, errBind, dropCols]
  refine ⟨hev, ?_⟩
  exact (rmv_cat_drop_iff
    { cat_names := ["A"], cont_names := [] }
    { cat_names := ["A"], cont_names := [], cols_to_drop := some ["A"] }
    [("A", List.replicate 11 (Cell.str "a"))] [] hev
    "A" (by simp) (by simp) ["A"] rfl).2 (Cell.str "a") 10 (by decide)

/-! ## Claim C9 -/

/-- C9: any `RemoveMinVariance` fit with `check_sample < 1.0` and at least
one continuous column raises a `NameError` instead of sub-sampling: the
source line `col = col.sample(int(len(col) * check_sample))` references
the bare name `check_sample` rather than `self.check_sample`, so the fit
never completes.  Evaluated here at the failing input
`check_sample = 1/2`, one continuous column `"A" = [0, 1]`. -/
theorem rmv_check_sample_below_one_raises_name_error :
    RemoveMinVariance.apply_train
        { cat_names := [], cont_names := ["A"], check_sample := 1 / 2 }
        [("A", [Cell.num 0, Cell.num 1])] =
      .error "NameError: name 'check_sample' is not defined" := by
  norm_num [RemoveMinVariance.apply_train, RemoveMinVariance.contGo,
    okBind, errBind]

/-! ## Claim C10 -/

/-- C10: under the default `freq_cut = 95/5 = 19`, a categorical column
with at least two distinct (non-missing) values is never added to the
to-drop list: the computed "frequency ratio" is a *difference* of two
relative frequencies, hence at most `1 < 19`; only single-valued columns
(frequency ratio `+∞`) can be flagged. -/
theorem rmv_default_freq_cut_never_drops_two_distinct
    (st st' : RemoveMinVariance) (df df' : DataFrame)
    (h : st.apply_train df = .ok (st', df'))
    (hfc : st.freq_cut = 95 / 5) (n : String) (hn : n ∈ st.cat_names)
    (hnc : n ∉ st.cont_names) (drops : List String)
    (hd : st'.cols_to_drop = some drops)
    (h2 : 2 ≤ (nonNull (getCol df n)).dedup.length) :
    n ∉ drops := by
  intro hmem
  rcases (rmv_train_drops_mem st st' df df' h hnc drops hd).mp hmem with
    ⟨_, ⟨r, hr, hlt, _⟩, _⟩
  rcases get_freq_ratio_le_one h2 with ⟨x, hx, hle⟩
  rw [hx] at hr
  have hrx : r = (x : WithTop ℚ) := by
    have hh : (x : WithTop ℚ) = r := by simpa using hr
    exact hh.symm
  subst hrx
  rw [hfc] at hlt
  have : (95 / 5 : ℚ) < x := WithTop.coe_lt_coe.mp hlt
  linarith [hle, this]

/-- Witness for C10: fitting on the two-distinct-valued column
`"A" = [0, 1]` (frequency ratio `(1 - 1)/2 = 0`, which is not `> 19`)
records an empty to-drop list, and `"A"` is not dropped.  (`"A"` is listed
as categorical; the near-zero-variance heuristic applies to whatever
columns `cat_names` names.) -/
theorem rmv_default_freq_cut_never_drops_two_distinct_witness :
    (RemoveMinVariance.apply_train
        { cat_names := ["A"], cont_names := [] }
        [("A", [Cell.num 0, Cell.num 1])] =
      .ok ({ cat_names := ["A"], cont_names := [], cols_to_drop := some [] },
           [("A", [Cell.num 0, Cell.num 1])])) ∧
    "A" ∉ ([] : List String) := by
  have hev : RemoveMinVariance.apply_train
      { cat_names := ["A"], cont_names := [] }
      [("A", [Cell.num 0, Cell.num 1])] =
    .ok ({ cat_names := ["A"], cont_names := [], cols_to_drop := some [] },
         [("A", [Cell.num 0, Cell.num 1])]) := by
    have hfr : get_freq_ratio (getCol [("A", [Cell.num 0, Cell.num 1])] "A") =
        .ok ((0 : ℚ) : WithTop ℚ) := by
      have hcol : getCol [("A", [Cell.num 0, Cell.num 1])] "A" =
          [Cell.num 0, Cell.num 1] := by
        simp [getCol, List.lookup]
      rw [hcol]
      unfold get_freq_ratio
      have h1 : nonNull [Cell.num 0, Cell.num 1] = [Cell.num 0, Cell.num 1] := by
        decide
      have h3 : List.insertionSort (fun a b => a ≥ b)
          (List.map (fun v => List.count v [Cell.num 0, Cell.num 1])
            [Cell.num 0, Cell.num 1].dedup) = [1, 1] := by decide
      simp only [h1, h3]
      rw [if_neg (by simp)]
      have hlen : nonNull [Cell.num 0, Cell.num 1] = [Cell.num 0, Cell.num 1] := h1
      norm_num
    unfold RemoveMinVariance.apply_train
    rw [RemoveMinVariance.contGo, okBind, RemoveMinVariance.catGo, hfr, okBind,
      RemoveMinVariance.catGo, okBind]
    rw [if_neg (by
      rintro ⟨⟨hlt, _⟩, _⟩
      have : (95 / 5 : ℚ) < 0 := WithTop.coe_lt_coe.mp hlt
      norm_num at this)]
    rfl
  refine ⟨hev, ?_⟩
  exact rmv_default_freq_cut_never_drops_two_distinct
    { cat_names := ["A"], cont_names := [] }
    { cat_names := ["A"], cont_names := [], cols_to_drop := some [] }
    [("A", [Cell.num 0, Cell.num 1])]
    [("A", [Cell.num 0, Cell.num 1])] hev rfl
    "A" (by simp) (by simp) [] rfl (by decide)

/-! ## Claim C8 -/

/-- C8: for each of the four concrete transforms with fitted state,
invoking apply-only before fit-and-apply has populated that state (the
corresponding attribute is still absent) fails with an error rather than
silently applying a default.  For the three transforms whose apply-only
path reads the state inside a per-column loop, the relevant name list must
be nonempty (CPython raises the `AttributeError` at the first read);
`RemoveMinVariance.apply_test` reads its state unconditionally. -/
theorem apply_only_before_fit_errors :
    (∀ (st : Categorify) (df : DataFrame), st.categories = none →
      st.cat_names ≠ [] → ∃ e, st.apply_test df = .error e) ∧
    (∀ (st : FillMissing) (df : DataFrame), st.na_dict = none →
      st.cont_names ≠ [] → ∃ e, st.apply_test df = .error e) ∧
    (∀ (st : Normalize) (df : DataFrame), st.means = none →
      st.cont_names ≠ [] → ∃ e, st.apply_test df = .error e) ∧
    (∀ (st : RemoveMinVariance) (df : DataFrame), st.cols_to_drop = none →
      ∃ e, st.apply_test df = .error e) := by
  refine ⟨?_, ?_, ?_, ?_⟩
  · intro st df hnone hne
    cases hc : st.cat_names with
    | nil => exact absurd hc hne
    | cons a rest =>
      refine ⟨"AttributeError: 'Categorify' object has no attribute 'categories'", ?_⟩
      unfold Categorify.apply_test
      rw [hc, hnone]
  · intro st df hnone hne
    cases hc : st.cont_names with
    | nil => exact absurd hc hne
    | cons a rest =>
      refine ⟨"AttributeError: 'FillMissing' object has no attribute 'na_dict'", ?_⟩
      unfold FillMissing.apply_test
      rw [hc, hnone]
  · intro st df hnone hne
    cases hc : st.cont_names with
    | nil => exact absurd hc hne
    | cons a rest =>
      refine ⟨"AttributeError: 'Normalize' object has no attribute 'means'", ?_⟩
      unfold Normalize.apply_test
      rw [hc, hnone]
  · intro st df hnone
    refine ⟨"AttributeError: 'RemoveMinVariance' object has no attribute 'cols_to_drop'", ?_⟩
    unfold RemoveMinVariance.apply_test
    rw [hnone]

/-- Witness for C8: each of the four transforms, freshly constructed (all
fitted state absent) with one relevant column, errors in apply-only
mode. -/
theorem apply_only_before_fit_errors_witness :
    (∃ e, Categorify.apply_test { cat_names := ["A"], cont_names := [] }
      [("A", [Cell.str "a"])] = .error e) ∧
    (∃ e, FillMissing.apply_test { cat_names := [], cont_names := ["A"] }
      [("A", [Cell.num 1])] = .error e) ∧
    (∃ e, Normalize.apply_test { cat_names := [], cont_names := ["A"] }
      [("A", [Cell.num 1])] = .error e) ∧
    (∃ e, RemoveMinVariance.apply_test { cat_names := [], cont_names := ["A"] }
      [("A", [Cell.num 1])] = .error e) := by
  refine ⟨?_, ?_, ?_, ?_⟩
  · exact apply_only_before_fit_errors.1
      { cat_names := ["A"], cont_names := [] } [("A", [Cell.str "a"])] rfl
      (by simp)
  · exact apply_only_before_fit_errors.2.1
      { cat_names := [], cont_names := ["A"] } [("A", [Cell.num 1])] rfl
      (by simp)
  · exact apply_only_before_fit_errors.2.2.1
      { cat_names := [], cont_names := ["A"] } [("A", [Cell.num 1])] rfl
      (by simp)
  · exact apply_only_before_fit_errors.2.2.2
      { cat_names := [], cont_names := ["A"] } [("A", [Cell.num 1])] rfl
